import Mathlib

/-!
Verification of the Black-Scholes pricing engine in `bs_single_script.py`.

The source defines twelve formula-level functions (two helpers `_d1`, `_d2`,
then prices and Greeks for European calls and puts) as pure arithmetic over
six real parameters, using `np.log`, `np.sqrt`, `np.exp`, `ss.norm.cdf` and
`ss.norm.pdf`.  We embed them with real-number semantics: `normalPDF` and
`normalCDF` are the genuine standard normal density and its Lebesgue-integral
cumulative distribution, and each source lambda becomes the same arithmetic
expression over `ℝ`.
-/

open Real MeasureTheory Set

noncomputable section

/-- Standard normal density, the semantics of `ss.norm.pdf`. -/
def normalPDF (x : ℝ) : ℝ := Real.exp (-(x ^ 2 / 2)) / Real.sqrt (2 * π)

/-- Standard normal cumulative distribution, the semantics of `ss.norm.cdf`. -/
def normalCDF (x : ℝ) : ℝ := ∫ t in Iic x, normalPDF t

/-- Helper `_d1` from the source:
`(np.log(S/K) + (r - q + .5*(v**2))*T) / (v * np.sqrt(T))`. -/
def _d1 (S K r q v T : ℝ) : ℝ :=
  (Real.log (S / K) + (r - q + 0.5 * v ^ 2) * T) / (v * Real.sqrt T)

/-- Helper `_d2` from the source: `_d1(S,K,r,q,v,T) - v * np.sqrt(T)`. -/
def _d2 (S K r q v T : ℝ) : ℝ :=
  _d1 S K r q v T - v * Real.sqrt T

/-- Function `call_price` from the source. -/
def call_price (S K r q v T : ℝ) : ℝ :=
  S * Real.exp (-q * T) * normalCDF (_d1 S K r q v T) -
    K * Real.exp (-r * T) * normalCDF (_d2 S K r q v T)

/-- Function `put_price` from the source. -/
def put_price (S K r q v T : ℝ) : ℝ :=
  K * Real.exp (-r * T) * normalCDF (-_d2 S K r q v T) -
    S * Real.exp (-q * T) * normalCDF (-_d1 S K r q v T)

/-- Function `call_delta` from the source. -/
def call_delta (S K r q v T : ℝ) : ℝ :=
  Real.exp (-q * T) * normalCDF (_d1 S K r q v T)

/-- Function `put_delta` from the source. -/
def put_delta (S K r q v T : ℝ) : ℝ :=
  (normalCDF (_d1 S K r q v T) - 1) * Real.exp (-q * T)

/-- Function `call_theta` from the source. -/
def call_theta (S K r q v T : ℝ) : ℝ :=
  -(S * Real.exp (-q * T) * v * normalPDF (_d1 S K r q v T)) / (2 * Real.sqrt T)
    - r * K * Real.exp (-r * T) * normalCDF (_d2 S K r q v T)
    + q * S * Real.exp (-q * T) * normalCDF (_d1 S K r q v T)

/-- Function `put_theta` from the source. -/
def put_theta (S K r q v T : ℝ) : ℝ :=
  -(S * Real.exp (-q * T) * v * normalPDF (_d1 S K r q v T)) / (2 * Real.sqrt T)
    + r * K * Real.exp (-r * T) * normalCDF (-_d2 S K r q v T)
    - q * S * Real.exp (-q * T) * normalCDF (-_d1 S K r q v T)

/-- Function `call_rho` from the source. -/
def call_rho (S K r q v T : ℝ) : ℝ :=
  K * T * Real.exp (-r * T) * normalCDF (_d2 S K r q v T)

/-- Function `put_rho` from the source. -/
def put_rho (S K r q v T : ℝ) : ℝ :=
  -K * T * Real.exp (-r * T) * normalCDF (-_d2 S K r q v T)

/-- Function `gamma` from the source. -/
def gamma (S K r q v T : ℝ) : ℝ :=
  Real.exp (-q * T) * normalPDF (_d1 S K r q v T) / (S * v * Real.sqrt T)

/-- Function `vega` from the source. -/
def vega (S K r q v T : ℝ) : ℝ :=
  S * normalPDF (_d1 S K r q v T) * Real.sqrt T

/-- The ITM-call demonstration parameters of the source,
`S = 75.5; K = 50.25; r = 0.10; q = 0.02; v = 0.35; T = 2.5`. -/
def itm_call_params : ℝ × ℝ × ℝ × ℝ × ℝ × ℝ :=
  (75.5, 50.25, 0.10, 0.02, 0.35, 2.5)

/-! ### Basic facts about the standard normal density and CDF -/

lemma sqrt_two_pi_pos : 0 < Real.sqrt (2 * π) :=
  Real.sqrt_pos.mpr (by positivity)

lemma normalPDF_pos (x : ℝ) : 0 < normalPDF x :=
  div_pos (Real.exp_pos _) sqrt_two_pi_pos

lemma normalPDF_nonneg (x : ℝ) : 0 ≤ normalPDF x := (normalPDF_pos x).le

lemma continuous_normalPDF : Continuous normalPDF := by
  unfold normalPDF
  fun_prop

lemma normalPDF_eq (x : ℝ) :
    normalPDF x = Real.exp (-(2⁻¹ : ℝ) * x ^ 2) / Real.sqrt (2 * π) := by
  unfold normalPDF
  ring_nf

lemma integrable_normalPDF : Integrable normalPDF := by
  have h : Integrable fun x : ℝ => Real.exp (-(2⁻¹ : ℝ) * x ^ 2) :=
    integrable_exp_neg_mul_sq (by norm_num)
  have h2 := h.div_const (Real.sqrt (2 * π))
  refine h2.congr (Filter.Eventually.of_forall fun x => ?_)
  rw [normalPDF_eq]

lemma gauss_half : ∫ x : ℝ, Real.exp (-(2⁻¹ : ℝ) * x ^ 2) = Real.sqrt (2 * π) := by
  rw [integral_gaussian]
  rw [show π / (2⁻¹ : ℝ) = 2 * π by ring]

lemma integral_normalPDF : ∫ x, normalPDF x = 1 := by
  have h := gauss_half
  calc ∫ x, normalPDF x
      = ∫ x : ℝ, Real.exp (-(2⁻¹ : ℝ) * x ^ 2) / Real.sqrt (2 * π) := by
        simp only [normalPDF_eq]
    _ = (∫ x : ℝ, Real.exp (-(2⁻¹ : ℝ) * x ^ 2)) / Real.sqrt (2 * π) :=
        integral_div _ _
    _ = 1 := by rw [h]; exact div_self (ne_of_gt sqrt_two_pi_pos)

lemma normalPDF_even (x : ℝ) : normalPDF (-x) = normalPDF x := by
  unfold normalPDF
  rw [neg_pow]
  norm_num

lemma normalCDF_add_neg (x : ℝ) : normalCDF x + normalCDF (-x) = 1 := by
  have hneg : normalCDF (-x) = ∫ t in Ioi x, normalPDF t := by
    unfold normalCDF
    calc ∫ t in Iic (-x), normalPDF t
        = ∫ t in Iic (-x), normalPDF (-t) := by
          refine setIntegral_congr_fun measurableSet_Iic fun t _ => ?_
          rw [normalPDF_even]
      _ = ∫ t in Ioi (-(-x)), normalPDF t := integral_comp_neg_Iic (-x) _
      _ = ∫ t in Ioi x, normalPDF t := by rw [neg_neg]
  have hsplit :
      (∫ t in Iic x, normalPDF t) + ∫ t in (Iic x)ᶜ, normalPDF t
        = ∫ t, normalPDF t :=
    integral_add_compl measurableSet_Iic integrable_normalPDF
  rw [Set.compl_Iic] at hsplit
  rw [hneg]
  unfold normalCDF
  rw [hsplit, integral_normalPDF]

lemma normalCDF_nonneg (x : ℝ) : 0 ≤ normalCDF x :=
  setIntegral_nonneg measurableSet_Iic fun t _ => normalPDF_nonneg t

lemma normalCDF_le_one (x : ℝ) : normalCDF x ≤ 1 := by
  have h := setIntegral_le_integral (μ := volume) (s := Iic x)
    integrable_normalPDF (Filter.Eventually.of_forall normalPDF_nonneg)
  rw [integral_normalPDF] at h
  exact h

lemma normalCDF_mono {x y : ℝ} (h : x ≤ y) : normalCDF x ≤ normalCDF y := by
  unfold normalCDF
  refine setIntegral_mono_set integrable_normalPDF.integrableOn
    (Filter.Eventually.of_forall fun t => normalPDF_nonneg t) ?_
  exact Filter.Eventually.of_forall (Iic_subset_Iic.mpr h)

lemma normalCDF_zero : normalCDF 0 = 1 / 2 := by
  have h := normalCDF_add_neg 0
  rw [neg_zero] at h
  linarith

end

/-- Modelled from the spec: `np.vectorize` (an external numpy facility, used in
the `__main__` block on a sequence of spot prices with the five remaining
parameters broadcast as scalars) applies the scalar function elementwise, in
order, to each element of the sequence. -/
noncomputable def vectorizeS (f : ℝ → ℝ → ℝ → ℝ → ℝ → ℝ → ℝ) :
    List ℝ → ℝ → ℝ → ℝ → ℝ → ℝ → List ℝ
  | [], _, _, _, _, _ => []
  | S :: Ss, K, r, q, v, T => f S K r q v T :: vectorizeS f Ss K r q v T

lemma vectorizeS_eq_map (f : ℝ → ℝ → ℝ → ℝ → ℝ → ℝ → ℝ)
    (Ss : List ℝ) (K r q v T : ℝ) :
    vectorizeS f Ss K r q v T = Ss.map fun S => f S K r q v T := by
  induction Ss with
  | nil => rfl
  | cons S Ss ih => simp [vectorizeS, ih]

/-! ### Quantitative estimates used for the concrete ITM-call scenario -/

lemma exp_upper_quartic {x : ℝ} (h0 : 0 ≤ x) (h1 : x ≤ 1) :
    Real.exp x ≤ 1 + x + x ^ 2 / 2 + x ^ 3 / 6 + 5 / 96 * x ^ 4 := by
  have h := Real.exp_bound' h0 h1 (n := 4) (by norm_num)
  have hsum : (∑ m ∈ Finset.range 4, x ^ m / m.factorial)
      = 1 + x + x ^ 2 / 2 + x ^ 3 / 6 := by
    simp [Finset.sum_range_succ, Nat.factorial]
    try ring
  rw [hsum] at h
  calc Real.exp x ≤ 1 + x + x ^ 2 / 2 + x ^ 3 / 6 + x ^ 4 * (4 + 1) /
        ((4 : ℕ).factorial * 4) := h
    _ = 1 + x + x ^ 2 / 2 + x ^ 3 / 6 + 5 / 96 * x ^ 4 := by
        norm_num [Nat.factorial]
        try ring

lemma exp_neg_lower {x : ℝ} (h0 : 0 ≤ x) (h1 : x ≤ 1) :
    1 - x + x ^ 2 / 2 - x ^ 3 / 6 - 5 / 96 * x ^ 4 ≤ Real.exp (-x) := by
  have habs : |(-x : ℝ)| ≤ 1 := by rw [abs_neg, abs_of_nonneg h0]; exact h1
  have h := Real.exp_bound habs (n := 4) (by norm_num)
  have hsum : (∑ m ∈ Finset.range 4, (-x) ^ m / m.factorial)
      = 1 - x + x ^ 2 / 2 - x ^ 3 / 6 := by
    simp [Finset.sum_range_succ, Nat.factorial]
    try ring
  rw [hsum, abs_neg, abs_of_nonneg h0] at h
  have h' := (abs_sub_le_iff.mp h).2
  have h4 : x ^ 4 * ((4 : ℕ).succ / ((4 : ℕ).factorial * (4 : ℕ)) : ℝ)
      = 5 / 96 * x ^ 4 := by
    norm_num [Nat.factorial]
    try ring
  rw [h4] at h'
  linarith

lemma sqrt_25_le : Real.sqrt 2.5 ≤ 1.5812 := by
  rw [show (1.5812 : ℝ) = Real.sqrt (1.5812 ^ 2) from
    (Real.sqrt_sq (by norm_num)).symm]
  exact Real.sqrt_le_sqrt (by norm_num)

lemma sqrt_25_pos : 0 < Real.sqrt 2.5 := Real.sqrt_pos.mpr (by norm_num)

lemma sqrt_two_pi_le : Real.sqrt (2 * π) ≤ 2.5067 := by
  rw [show (2.5067 : ℝ) = Real.sqrt (2.5067 ^ 2) from
    (Real.sqrt_sq (by norm_num)).symm]
  refine Real.sqrt_le_sqrt ?_
  nlinarith [Real.pi_lt_d6]

lemma log_itm_ratio_ge : (0.406 : ℝ) ≤ Real.log (75.5 / 50.25) := by
  rw [Real.le_log_iff_exp_le (by norm_num)]
  have h := exp_upper_quartic (x := 0.406) (by norm_num) (by norm_num)
  calc Real.exp 0.406
      ≤ 1 + 0.406 + (0.406 : ℝ) ^ 2 / 2 + (0.406 : ℝ) ^ 3 / 6
          + 5 / 96 * (0.406 : ℝ) ^ 4 := h
    _ ≤ 75.5 / 50.25 := by norm_num

lemma d1_itm_ge : (1.37 : ℝ) ≤ _d1 75.5 50.25 0.10 0.02 0.35 2.5 := by
  unfold _d1
  rw [le_div_iff (by positivity)]
  have hlog := log_itm_ratio_ge
  have hs := sqrt_25_le
  nlinarith [sqrt_25_pos]

lemma intervalIntegrable_normalPDF (a b : ℝ) :
    IntervalIntegrable normalPDF volume a b :=
  continuous_normalPDF.intervalIntegrable a b

lemma normalCDF_eq_add {a b : ℝ} (hab : a ≤ b) :
    normalCDF b = normalCDF a + ∫ x in a..b, normalPDF x := by
  unfold normalCDF
  rw [intervalIntegral.integral_of_le hab]
  rw [← setIntegral_union (Set.Iic_disjoint_Ioc le_rfl) measurableSet_Ioc
    integrable_normalPDF.integrableOn integrable_normalPDF.integrableOn,
    Set.Iic_union_Ioc_eq_Iic hab]

lemma normalPDF_le_of_mem {a b x : ℝ} (ha : 0 ≤ a) (hx : x ∈ Icc a b) :
    normalPDF b ≤ normalPDF x := by
  unfold normalPDF
  have h1 := hx.1
  have h2 := hx.2
  have hexp : Real.exp (-(b ^ 2 / 2)) ≤ Real.exp (-(x ^ 2 / 2)) := by
    apply Real.exp_le_exp.mpr
    nlinarith
  exact (div_le_div_right sqrt_two_pi_pos).mpr hexp

lemma piece_lower {a b L : ℝ} (ha : 0 ≤ a) (hab : a ≤ b) (hL0 : 0 ≤ L)
    (hL : L ≤ Real.exp (-(b ^ 2 / 2))) :
    (b - a) * (L / 2.5067) ≤ ∫ x in a..b, normalPDF x := by
  have hmono : ∀ x ∈ Icc a b, (fun _ : ℝ => L / 2.5067) x ≤ normalPDF x := by
    intro x hx
    calc L / 2.5067 ≤ Real.exp (-(b ^ 2 / 2)) / Real.sqrt (2 * π) :=
          div_le_div₀ (Real.exp_pos _).le hL sqrt_two_pi_pos sqrt_two_pi_le
      _ = normalPDF b := rfl
      _ ≤ normalPDF x := normalPDF_le_of_mem ha hx
  have hc := intervalIntegral.integral_mono_on (μ := volume) hab
    (intervalIntegrable_const) (intervalIntegrable_normalPDF a b) hmono
  rw [intervalIntegral.integral_const] at hc
  simpa [smul_eq_mul] using hc

lemma L1_le : (0.943 : ℝ) ≤ Real.exp (-((0.3425 : ℝ) ^ 2 / 2)) := by
  have h := exp_neg_lower (x := (0.3425 : ℝ) ^ 2 / 2) (by norm_num) (by norm_num)
  refine le_trans ?_ h
  norm_num

lemma L2_le : (0.7905 : ℝ) ≤ Real.exp (-((0.685 : ℝ) ^ 2 / 2)) := by
  have h := exp_neg_lower (x := (0.685 : ℝ) ^ 2 / 2) (by norm_num) (by norm_num)
  refine le_trans ?_ h
  norm_num

lemma L3_le : (0.5828 : ℝ) ≤ Real.exp (-((1.0275 : ℝ) ^ 2 / 2)) := by
  have h := exp_neg_lower (x := (1.0275 : ℝ) ^ 2 / 2) (by norm_num) (by norm_num)
  refine le_trans ?_ h
  norm_num

lemma L4_le : (0.3237 : ℝ) ≤ Real.exp (-((1.37 : ℝ) ^ 2 / 2)) := by
  have h := exp_neg_lower (x := (1.37 : ℝ) ^ 2 / 2) (by norm_num) (by norm_num)
  refine le_trans ?_ h
  norm_num

lemma normalCDF_137_ge : (0.8607 : ℝ) ≤ normalCDF 1.37 := by
  have heq := normalCDF_eq_add (show (0 : ℝ) ≤ 1.37 by norm_num)
  have h1 := intervalIntegral.integral_add_adjacent_intervals (μ := volume)
    (intervalIntegrable_normalPDF 0 0.3425) (intervalIntegrable_normalPDF 0.3425 0.685)
  have h2 := intervalIntegral.integral_add_adjacent_intervals (μ := volume)
    (intervalIntegrable_normalPDF 0 0.685) (intervalIntegrable_normalPDF 0.685 1.0275)
  have h3 := intervalIntegral.integral_add_adjacent_intervals (μ := volume)
    (intervalIntegrable_normalPDF 0 1.0275) (intervalIntegrable_normalPDF 1.0275 1.37)
  have p1 := piece_lower (a := 0) (b := 0.3425) (L := 0.943)
    (by norm_num) (by norm_num) (by norm_num) L1_le
  have p2 := piece_lower (a := 0.3425) (b := 0.685) (L := 0.7905)
    (by norm_num) (by norm_num) (by norm_num) L2_le
  have p3 := piece_lower (a := 0.685) (b := 1.0275) (L := 0.5828)
    (by norm_num) (by norm_num) (by norm_num) L3_le
  have p4 := piece_lower (a := 1.0275) (b := 1.37) (L := 0.3237)
    (by norm_num) (by norm_num) (by norm_num) L4_le
  rw [normalCDF_zero] at heq
  norm_num at p1 p2 p3 p4 heq h1 h2 h3 ⊢
  linarith

lemma exp_neg_005_ge : (0.9512 : ℝ) ≤ Real.exp (-(0.05 : ℝ)) := by
  have h := exp_neg_lower (x := (0.05 : ℝ)) (by norm_num) (by norm_num)
  refine le_trans ?_ h
  norm_num

/-! ### Claim theorems -/

/-- C1: for all S,K,v,T > 0 and all r,q, put-call parity holds exactly:
`call_price - put_price = S*exp(-q*T) - K*exp(-r*T)`. -/
theorem put_call_parity (S K r q v T : ℝ)
    (hS : 0 < S) (hK : 0 < K) (hv : 0 < v) (hT : 0 < T) :
    call_price S K r q v T - put_price S K r q v T
      = S * Real.exp (-q * T) - K * Real.exp (-r * T) := by
  have h1 := normalCDF_add_neg (_d1 S K r q v T)
  have h2 := normalCDF_add_neg (_d2 S K r q v T)
  unfold call_price put_price
  linear_combination S * Real.exp (-q * T) * h1 - K * Real.exp (-r * T) * h2

/-- Witness for C1 at S=2, K=1, r=0, q=0, v=1, T=1. -/
theorem put_call_parity_witness :
    (0:ℝ) < 2 ∧ (0:ℝ) < 1 ∧
      call_price 2 1 0 0 1 1 - put_price 2 1 0 0 1 1
        = 2 * Real.exp (-0 * 1) - 1 * Real.exp (-0 * 1) :=
  ⟨by norm_num, by norm_num,
    put_call_parity 2 1 0 0 1 1 (by norm_num) (by norm_num) (by norm_num) (by norm_num)⟩

/-- C3: for all S,K,v,T > 0 and all r,q, `call_price` equals
`S*exp(-q*T)*Φ(d1) - K*exp(-r*T)*Φ(d2)` with
`d1 = (log(S/K) + (r-q+0.5*v^2)*T)/(v*sqrt T)` and `Φ` the standard
normal CDF. -/
theorem call_price_formula (S K r q v T : ℝ)
    (hS : 0 < S) (hK : 0 < K) (hv : 0 < v) (hT : 0 < T) :
    call_price S K r q v T
      = S * Real.exp (-q * T) *
          normalCDF ((Real.log (S / K) + (r - q + 0.5 * v ^ 2) * T) / (v * Real.sqrt T)) -
        K * Real.exp (-r * T) *
          normalCDF ((Real.log (S / K) + (r - q + 0.5 * v ^ 2) * T) / (v * Real.sqrt T)
            - v * Real.sqrt T) := rfl

/-- Witness for C3 at S=2, K=1, r=0, q=0, v=1, T=1. -/
theorem call_price_formula_witness :
    (0:ℝ) < 2 ∧ (0:ℝ) < 1 ∧
      call_price 2 1 0 0 1 1
        = 2 * Real.exp (-0 * 1) *
            normalCDF ((Real.log (2 / 1) + (0 - 0 + 0.5 * 1 ^ 2) * 1) / (1 * Real.sqrt 1)) -
          1 * Real.exp (-0 * 1) *
            normalCDF ((Real.log (2 / 1) + (0 - 0 + 0.5 * 1 ^ 2) * 1) / (1 * Real.sqrt 1)
              - 1 * Real.sqrt 1) :=
  ⟨by norm_num, by norm_num,
    call_price_formula 2 1 0 0 1 1 (by norm_num) (by norm_num) (by norm_num) (by norm_num)⟩

/-- C4: for all S,K,v,T > 0 and all r,q, `put_price` equals
`K*exp(-r*T)*Φ(-d2) - S*exp(-q*T)*Φ(-d1)` with `d2 = d1 - v*sqrt T`. -/
theorem put_price_formula (S K r q v T : ℝ)
    (hS : 0 < S) (hK : 0 < K) (hv : 0 < v) (hT : 0 < T) :
    put_price S K r q v T
      = K * Real.exp (-r * T) *
          normalCDF (-((Real.log (S / K) + (r - q + 0.5 * v ^ 2) * T) / (v * Real.sqrt T)
            - v * Real.sqrt T)) -
        S * Real.exp (-q * T) *
          normalCDF (-((Real.log (S / K) + (r - q + 0.5 * v ^ 2) * T) / (v * Real.sqrt T))) :=
  rfl

/-- Witness for C4 at S=2, K=1, r=0, q=0, v=1, T=1. -/
theorem put_price_formula_witness :
    (0:ℝ) < 2 ∧ (0:ℝ) < 1 ∧
      put_price 2 1 0 0 1 1
        = 1 * Real.exp (-0 * 1) *
            normalCDF (-((Real.log (2 / 1) + (0 - 0 + 0.5 * 1 ^ 2) * 1) / (1 * Real.sqrt 1)
              - 1 * Real.sqrt 1)) -
          2 * Real.exp (-0 * 1) *
            normalCDF (-((Real.log (2 / 1) + (0 - 0 + 0.5 * 1 ^ 2) * 1) / (1 * Real.sqrt 1))) :=
  ⟨by norm_num, by norm_num,
    put_price_formula 2 1 0 0 1 1 (by norm_num) (by norm_num) (by norm_num) (by norm_num)⟩

/-- C5: for all S,K,v,T > 0 and all r,q, `call_theta` and `put_theta` are the
raw ∂/∂T formulas
`-(S*exp(-q*T)*v*φ(d1))/(2*sqrt T) - r*K*exp(-r*T)*Φ(d2) + q*S*exp(-q*T)*Φ(d1)`
and
`-(S*exp(-q*T)*v*φ(d1))/(2*sqrt T) + r*K*exp(-r*T)*Φ(-d2) - q*S*exp(-q*T)*Φ(-d1)`,
with `φ` the standard normal PDF. -/
theorem theta_formulas (S K r q v T : ℝ)
    (hS : 0 < S) (hK : 0 < K) (hv : 0 < v) (hT : 0 < T) :
    call_theta S K r q v T
      = -(S * Real.exp (-q * T) * v * normalPDF (_d1 S K r q v T)) / (2 * Real.sqrt T)
          - r * K * Real.exp (-r * T) * normalCDF (_d2 S K r q v T)
          + q * S * Real.exp (-q * T) * normalCDF (_d1 S K r q v T) ∧
    put_theta S K r q v T
      = -(S * Real.exp (-q * T) * v * normalPDF (_d1 S K r q v T)) / (2 * Real.sqrt T)
          + r * K * Real.exp (-r * T) * normalCDF (-_d2 S K r q v T)
          - q * S * Real.exp (-q * T) * normalCDF (-_d1 S K r q v T) :=
  ⟨rfl, rfl⟩

/-- Witness for C5 at S=2, K=1, r=0, q=0, v=1, T=1. -/
theorem theta_formulas_witness :
    (0:ℝ) < 2 ∧ (0:ℝ) < 1 ∧
      (call_theta 2 1 0 0 1 1
        = -(2 * Real.exp (-0 * 1) * 1 * normalPDF (_d1 2 1 0 0 1 1)) / (2 * Real.sqrt 1)
            - 0 * 1 * Real.exp (-0 * 1) * normalCDF (_d2 2 1 0 0 1 1)
            + 0 * 2 * Real.exp (-0 * 1) * normalCDF (_d1 2 1 0 0 1 1) ∧
       put_theta 2 1 0 0 1 1
        = -(2 * Real.exp (-0 * 1) * 1 * normalPDF (_d1 2 1 0 0 1 1)) / (2 * Real.sqrt 1)
            + 0 * 1 * Real.exp (-0 * 1) * normalCDF (-_d2 2 1 0 0 1 1)
            - 0 * 2 * Real.exp (-0 * 1) * normalCDF (-_d1 2 1 0 0 1 1)) :=
  ⟨by norm_num, by norm_num,
    theta_formulas 2 1 0 0 1 1 (by norm_num) (by norm_num) (by norm_num) (by norm_num)⟩

/-- C6: for all S,K,v,T > 0 and all r,q, the call delta lies in
`[0, exp(-q*T)]` and the put delta in `[-exp(-q*T), 0]`. -/
theorem delta_bounds (S K r q v T : ℝ)
    (hS : 0 < S) (hK : 0 < K) (hv : 0 < v) (hT : 0 < T) :
    0 ≤ call_delta S K r q v T ∧ call_delta S K r q v T ≤ Real.exp (-q * T) ∧
      -Real.exp (-q * T) ≤ put_delta S K r q v T ∧ put_delta S K r q v T ≤ 0 := by
  have h0 := normalCDF_nonneg (_d1 S K r q v T)
  have h1 := normalCDF_le_one (_d1 S K r q v T)
  have he := Real.exp_pos (-q * T)
  unfold call_delta put_delta
  refine ⟨by positivity, ?_, ?_, ?_⟩
  · nlinarith
  · nlinarith
  · nlinarith

/-- Witness for C6 at S=2, K=1, r=0, q=0, v=1, T=1. -/
theorem delta_bounds_witness :
    (0:ℝ) < 2 ∧ (0:ℝ) < 1 ∧
      (0 ≤ call_delta 2 1 0 0 1 1 ∧ call_delta 2 1 0 0 1 1 ≤ Real.exp (-0 * 1) ∧
        -Real.exp (-0 * 1) ≤ put_delta 2 1 0 0 1 1 ∧ put_delta 2 1 0 0 1 1 ≤ 0) :=
  ⟨by norm_num, by norm_num,
    delta_bounds 2 1 0 0 1 1 (by norm_num) (by norm_num) (by norm_num) (by norm_num)⟩

/-- C7: for all S,K,v,T > 0 and all r,q, `gamma` and `vega` are strictly
positive. -/
theorem gamma_vega_pos (S K r q v T : ℝ)
    (hS : 0 < S) (hK : 0 < K) (hv : 0 < v) (hT : 0 < T) :
    0 < gamma S K r q v T ∧ 0 < vega S K r q v T := by
  have hpdf := normalPDF_pos (_d1 S K r q v T)
  have hsT : 0 < Real.sqrt T := Real.sqrt_pos.mpr hT
  have he := Real.exp_pos (-q * T)
  unfold gamma vega
  exact ⟨div_pos (mul_pos he hpdf) (mul_pos (mul_pos hS hv) hsT),
    mul_pos (mul_pos hS hpdf) hsT⟩

/-- Witness for C7 at S=2, K=1, r=0, q=0, v=1, T=1. -/
theorem gamma_vega_pos_witness :
    (0:ℝ) < 2 ∧ (0:ℝ) < 1 ∧
      (0 < gamma 2 1 0 0 1 1 ∧ 0 < vega 2 1 0 0 1 1) :=
  ⟨by norm_num, by norm_num,
    gamma_vega_pos 2 1 0 0 1 1 (by norm_num) (by norm_num) (by norm_num) (by norm_num)⟩

/-- C10: for all S,K,v,T > 0 and all r,q, the two deltas differ exactly by the
dividend discount factor: `call_delta - put_delta = exp(-q*T)`. -/
theorem delta_parity (S K r q v T : ℝ)
    (hS : 0 < S) (hK : 0 < K) (hv : 0 < v) (hT : 0 < T) :
    call_delta S K r q v T - put_delta S K r q v T = Real.exp (-q * T) := by
  unfold call_delta put_delta
  ring

/-- Witness for C10 at S=2, K=1, r=0, q=0, v=1, T=1. -/
theorem delta_parity_witness :
    (0:ℝ) < 2 ∧ (0:ℝ) < 1 ∧
      call_delta 2 1 0 0 1 1 - put_delta 2 1 0 0 1 1 = Real.exp (-0 * 1) :=
  ⟨by norm_num, by norm_num,
    delta_parity 2 1 0 0 1 1 (by norm_num) (by norm_num) (by norm_num) (by norm_num)⟩

/-- C2 (evaluation at the failing input): the source performs no domain
validation; at `T = 0` (the other parameters the ITM-call fixture values)
`call_price` evaluates the raw formula instead of raising any error.  In the
real-semantics embedding, where division by zero yields 0, `_d1 = _d2 = 0`
there, and `call_price` returns `(S - K)/2`. -/
theorem call_price_no_validation_at_T_zero :
    call_price 75.5 50.25 0.10 0.02 0.35 0 = (75.5 - 50.25) / 2 := by
  have h1 : _d1 75.5 50.25 0.10 0.02 0.35 0 = 0 := by
    unfold _d1
    rw [Real.sqrt_zero]
    norm_num
  have h2 : _d2 75.5 50.25 0.10 0.02 0.35 0 = 0 := by
    unfold _d2
    rw [h1, Real.sqrt_zero]
    norm_num
  unfold call_price
  rw [h1, h2, normalCDF_zero]
  norm_num [Real.exp_zero]

/-- C9: applying the elementwise (vectorized) form of each pricing/Greek
function over a sequence of spot prices, with K, r, q, v, T fixed scalars,
yields exactly the elementwise map of the scalar function, in order and of
the same length. -/
theorem vectorize_consistency (Ss : List ℝ) (K r q v T : ℝ) :
    vectorizeS call_price Ss K r q v T = (Ss.map fun S => call_price S K r q v T) ∧
    vectorizeS put_price Ss K r q v T = (Ss.map fun S => put_price S K r q v T) ∧
    vectorizeS call_delta Ss K r q v T = (Ss.map fun S => call_delta S K r q v T) ∧
    vectorizeS put_delta Ss K r q v T = (Ss.map fun S => put_delta S K r q v T) ∧
    vectorizeS call_theta Ss K r q v T = (Ss.map fun S => call_theta S K r q v T) ∧
    vectorizeS put_theta Ss K r q v T = (Ss.map fun S => put_theta S K r q v T) ∧
    vectorizeS call_rho Ss K r q v T = (Ss.map fun S => call_rho S K r q v T) ∧
    vectorizeS put_rho Ss K r q v T = (Ss.map fun S => put_rho S K r q v T) ∧
    vectorizeS gamma Ss K r q v T = (Ss.map fun S => gamma S K r q v T) ∧
    vectorizeS vega Ss K r q v T = (Ss.map fun S => vega S K r q v T) ∧
    (vectorizeS call_price Ss K r q v T).length = Ss.length :=
  ⟨vectorizeS_eq_map _ _ _ _ _ _ _, vectorizeS_eq_map _ _ _ _ _ _ _,
    vectorizeS_eq_map _ _ _ _ _ _ _, vectorizeS_eq_map _ _ _ _ _ _ _,
    vectorizeS_eq_map _ _ _ _ _ _ _, vectorizeS_eq_map _ _ _ _ _ _ _,
    vectorizeS_eq_map _ _ _ _ _ _ _, vectorizeS_eq_map _ _ _ _ _ _ _,
    vectorizeS_eq_map _ _ _ _ _ _ _, vectorizeS_eq_map _ _ _ _ _ _ _,
    by rw [vectorizeS_eq_map]; exact List.length_map _ _⟩

/-- C8: at the ITM-call fixture S=75.5, K=50.25, r=0.10, q=0.02, v=0.35,
T=2.5, the call delta lies strictly between 0.8 and 1, and the call price
equals the closed-form value `S*exp(-q*T)*Φ(d1) - K*exp(-r*T)*Φ(d2)` at
those inputs. -/
theorem itm_call_scenario :
    (0.8 < call_delta 75.5 50.25 0.10 0.02 0.35 2.5 ∧
      call_delta 75.5 50.25 0.10 0.02 0.35 2.5 < 1) ∧
    call_price 75.5 50.25 0.10 0.02 0.35 2.5
      = 75.5 * Real.exp (-0.02 * 2.5) *
          normalCDF ((Real.log (75.5 / 50.25) + (0.10 - 0.02 + 0.5 * 0.35 ^ 2) * 2.5)
            / (0.35 * Real.sqrt 2.5)) -
        50.25 * Real.exp (-0.10 * 2.5) *
          normalCDF ((Real.log (75.5 / 50.25) + (0.10 - 0.02 + 0.5 * 0.35 ^ 2) * 2.5)
            / (0.35 * Real.sqrt 2.5) - 0.35 * Real.sqrt 2.5) := by
  refine ⟨?_, rfl⟩
  have hPhi : (0.8607 : ℝ) ≤ normalCDF (_d1 75.5 50.25 0.10 0.02 0.35 2.5) :=
    normalCDF_137_ge.trans (normalCDF_mono d1_itm_ge)
  have hPhi1 := normalCDF_le_one (_d1 75.5 50.25 0.10 0.02 0.35 2.5)
  have hexp_lo := exp_neg_005_ge
  have hexp_hi : Real.exp (-(0.05 : ℝ)) < 1 := Real.exp_lt_one_iff.mpr (by norm_num)
  have hexp_pos := Real.exp_pos (-(0.05 : ℝ))
  unfold call_delta
  rw [show (-0.02 * 2.5 : ℝ) = -(0.05 : ℝ) by norm_num]
  constructor
  · nlinarith
  · nlinarith
